import Mathlib

/-!
# Verification of the TensorFlow.js image-classifier training controller

Shallow embedding of the repository's original logic:

* `StorageManager` (IndexedDB wrapper, `src/unnamed/part_000` lines 655-978):
  classes/images records, `deleteClass` cascade, `getDataSummary`.
* `ModelManager.train` (the training session controller,
  `src/unnamed/part_000` lines 447-540): the cooperative epoch loop with
  pause/stop flags, modelled as a deterministic interpreter over a schedule
  of externally-issued control calls (`pauseTraining`/`resumeTraining`/
  `stopTraining`), which in the browser can only take effect at the loop's
  `await` points.  The trace of emitted callback events is made explicit.
* `handleStartTraining` / `handleAddClass` (`src/js/app.js`): validation
  and duplicate-checking logic, including the tensor disposal performed by
  the `onTrainingEnd` / `onTrainingError` callbacks.

Loss/accuracy values are opaque payloads (the claims never inspect them),
so the fit result carries an abstract type `L` and errors an abstract
type `E`.
-/

namespace ImageClassifier

/-! ## Persistent store records (storage.js)

A `Class` record is `{ id, name, createdAt }` and an `Image` record is
`{ id, classId, data, createdAt }`; the `createdAt` timestamps play no role
in any claim and are omitted.  The store state is the contents of the
`classes` and `images` object stores (both keyed by `id`). -/

structure ClassRec where
  id : Nat
  name : String
  deriving DecidableEq

structure ImageRec where
  id : Nat
  classId : Nat
  data : String
  deriving DecidableEq

structure Store where
  classes : List ClassRec
  images : List ImageRec
  deriving DecidableEq

/-- Models `storage.addClass(name)`: a `store.add` with an
auto-increment key; the fresh key is a parameter of the model. -/
def Store.addClass (st : Store) (freshId : Nat) (name : String) : Store :=
  { st with classes := st.classes ++ [⟨freshId, name⟩] }

/-- Models `storage.getImagesByClass(classId)`: the `classId` index `getAll`. -/
def Store.getImagesByClass (st : Store) (classId : Nat) : List ImageRec :=
  st.images.filter fun img => img.classId = classId

/-- Models `storage.deleteImage(id)` and the per-image `store.delete(img.id)` calls:
removes the image records with the given key. -/
def Store.deleteImage (st : Store) (id : Nat) : Store :=
  { st with images := st.images.filter fun img => ¬ img.id = id }

/-- Models `storage.deleteImagesByClass(classId)`: fetches the class's images and
deletes each one by its id. -/
def Store.deleteImagesByClass (st : Store) (classId : Nat) : Store :=
  (st.getImagesByClass classId).foldl (fun s img => s.deleteImage img.id) st

/-- The second, separate step of `storage.deleteClass(id)`: the
`store.delete(id)` on the `classes` object store. -/
def Store.deleteClassRecord (st : Store) (id : Nat) : Store :=
  { st with classes := st.classes.filter fun c => ¬ c.id = id }

/-- Models `storage.deleteClass(id)`: first awaits `deleteImagesByClass(id)`, then
deletes the class record — two non-atomic store operations in that order. -/
def Store.deleteClass (st : Store) (id : Nat) : Store :=
  (st.deleteImagesByClass id).deleteClassRecord id

/-! ## getDataSummary (storage.js lines 954-974)

`classCounts` is a plain JS object: a key is present exactly when the first
loop inserted it (`classCounts[cls.id] = 0` for each class), and the second
loop increments a key only when it is already present
(`if (classCounts[img.classId] !== undefined)`).  JS objects are modelled
as `Nat → Option Nat` with pointwise update. -/

def setKey (m : Nat → Option Nat) (k v : Nat) : Nat → Option Nat :=
  fun x => if x = k then some v else m x

/-- Models the first loop of `getDataSummary`: zero-initialise a key per class. -/
def initClassCounts (classes : List ClassRec) : Nat → Option Nat :=
  classes.foldl (fun m c => setKey m c.id 0) (fun _ => none)

/-- Models the second loop of `getDataSummary`:
`for (img of images) if (classCounts[img.classId] !== undefined) classCounts[img.classId]++`. -/
def tallyImages (m : Nat → Option Nat) (images : List ImageRec) : Nat → Option Nat :=
  images.foldl
    (fun m img =>
      match m img.classId with
      | some v => setKey m img.classId (v + 1)
      | none => m)
    m

structure DataSummary where
  numClasses : Nat
  totalImages : Nat
  classCounts : Nat → Option Nat
  classes : List ClassRec

/-- Models `storage.getDataSummary()`. -/
def Store.getDataSummary (st : Store) : DataSummary :=
  { numClasses := st.classes.length
    totalImages := st.images.length
    classCounts := tallyImages (initClassCounts st.classes) st.images
    classes := st.classes }

/-! ## handleAddClass (app.js lines 229-258)

The handler trims the input, silently refuses an empty name or a
case-insensitive duplicate (`some(c => c.name.toLowerCase() ===
name.toLowerCase())`), and otherwise performs exactly one store write
(`storage.addClass`) and pushes the new class onto `state.classes`. -/

/-- JS `String.prototype.toLowerCase` restricted to the simple
character-wise case mapping. -/
def jsToLower (s : String) : String := ⟨s.data.map Char.toLower⟩

/-- JS `String.prototype.trim`: strip leading and trailing whitespace. -/
def jsTrim (s : String) : String :=
  ⟨((s.data.dropWhile Char.isWhitespace).reverse.dropWhile Char.isWhitespace).reverse⟩

structure AddClassResult where
  classes : List ClassRec
  store : Store
  storeWrites : Nat
  deriving DecidableEq

def handleAddClass (classes : List ClassRec) (st : Store) (input : String)
    (freshId : Nat) : AddClassResult :=
  let name := jsTrim input
  if name = "" then
    ⟨classes, st, 0⟩
  else if classes.any fun c => jsToLower c.name = jsToLower name then
    ⟨classes, st, 0⟩
  else
    ⟨classes ++ [⟨freshId, name⟩], st.addClass freshId name, 1⟩

/-! ## The training session controller (model.js `ModelManager.train`, lines 447-540)

`train` runs

```
this.isTraining = true; this.isPaused = false; this.shouldStop = false;
this.currentEpoch = 0;
try {
  await this.createModel(...); this.compileModel(...);
  for (let epoch = 0; epoch < epochs && !this.shouldStop; epoch++) {
    this.currentEpoch = epoch;
    while (this.isPaused && !this.shouldStop) { await sleep(100); }
    if (this.shouldStop) break;
    const history = await this.model.fit(...);
    if (callbacks.onEpochEnd) callbacks.onEpochEnd(epoch, epochs, {...});
  }
  this.isTraining = false;
  if (callbacks.onTrainingEnd) callbacks.onTrainingEnd(!this.shouldStop);
  return !this.shouldStop;
} catch (error) {
  this.isTraining = false;
  if (callbacks.onTrainingError) callbacks.onTrainingError(error);
  throw error;
}
```

JavaScript is single-threaded: the flag mutations performed by
`pauseTraining` / `resumeTraining` / `stopTraining` (lines 523-540) can only
be observed by the loop at its `await` points — the initial model setup,
each `sleep(100)` of the pause wait, and each `model.fit` call.  The model
therefore takes a *schedule*: a list of action batches, one batch consumed
at each successive `await` point (an empty remaining schedule means no
further control calls ever arrive).  The trace records, in order, every
control call taking effect, every `fit` issued (with the flag values at that
moment), every `onEpochEnd` callback, the terminal `onTrainingEnd` /
`onTrainingError` callback, and the disposal of the `xs`/`ys` tensor pair
that the app-level callbacks perform (`app.js` lines 560-590: both
`onTrainingEnd` and `onTrainingError` run `trainingData.xs.dispose();
trainingData.ys.dispose();`; the `catch` in `handleStartTraining` does not
dispose again).  Model setup (`createModel`/`compileModel`) is modelled as
non-failing: the claims under verification concern errors thrown by the
`fit` call.  `fit` is an oracle `Nat → Except E L` giving, per epoch, either
the opaque epoch logs or the thrown error. -/

/-- A control call issued from the UI: `pauseTraining`, `resumeTraining`,
or `stopTraining`. -/
inductive Action where
  | pause
  | resume
  | stop
  deriving DecidableEq

/-- The `ModelManager` flags touched by the training lifecycle. -/
structure TrainState where
  isTraining : Bool
  isPaused : Bool
  shouldStop : Bool
  currentEpoch : Nat
  deriving DecidableEq

/-- State at `train` entry (lines 451-454): flags reset, epoch 0. -/
def initialTrainState : TrainState :=
  { isTraining := true, isPaused := false, shouldStop := false, currentEpoch := 0 }

/-- Models `pauseTraining` / `resumeTraining` / `stopTraining` (lines 523-540).
Note `stopTraining` also clears `isPaused`. -/
def applyAction (s : TrainState) : Action → TrainState
  | .pause => { s with isPaused := true }
  | .resume => { s with isPaused := false }
  | .stop => { s with shouldStop := true, isPaused := false }

/-- An observable event of one training session. -/
inductive Event (E L : Type) where
  /-- a control call (`pauseTraining`/`resumeTraining`/`stopTraining`) takes effect -/
  | ctl (a : Action)
  /-- a `model.fit` call is issued for `epoch`, with the flag values at that moment -/
  | fitBegin (epoch : Nat) (pausedAt stoppedAt : Bool)
  /-- an `onEpochEnd(epoch, total, logs)` callback — one ProgressEvent -/
  | epochEnd (epoch : Nat) (total : Nat) (logs : L)
  /-- the `onTrainingEnd(completed)` callback -/
  | trainingEnd (completed : Bool)
  /-- the `onTrainingError(e)` callback -/
  | trainingError (e : E)
  /-- the app callback disposes the `xs`/`ys` tensor pair -/
  | released
  deriving DecidableEq

/-- How a session ends: `train` returned `!shouldStop`, `train` threw, or
the pause wait spins forever (no control call ever arrives to release it). -/
inductive RunResult (E : Type) where
  | finished (completed : Bool)
  | errored (e : E)
  | hung
  deriving DecidableEq

structure RunTrace (E L : Type) where
  trace : List (Event E L)
  result : RunResult E
  final : TrainState
  deriving DecidableEq

variable {E L : Type}

/-- Apply a batch of control calls in order, recording each as a `ctl` event. -/
def applyActions : TrainState → List Action → List (Event E L) × TrainState
  | s, [] => ([], s)
  | s, a :: rest =>
    let p := applyActions (applyAction s a) rest
    (.ctl a :: p.1, p.2)

/-- One `await` point: the next schedule batch takes effect. -/
def consume : TrainState → List (List Action) →
    List (Event E L) × TrainState × List (List Action)
  | s, [] => ([], s, [])
  | s, batch :: rest =>
    let p := applyActions s batch
    (p.1, p.2, rest)

/-- Models the wait loop `while (isPaused and not shouldStop) await sleep(100)`:
each iteration of the wait is an `await` point consuming one schedule batch.
If the schedule runs out while the guard still holds, no control call will
ever change the flags again and the wait spins forever (`none`). -/
def pauseWait : TrainState → List (List Action) →
    List (Event E L) × TrainState × Option (List (List Action))
  | s, [] =>
    if s.isPaused && !s.shouldStop then ([], s, none) else ([], s, some [])
  | s, batch :: rest =>
    if s.isPaused && !s.shouldStop then
      let p := applyActions s batch
      let q := pauseWait p.2 rest
      (p.1 ++ q.1, q.2)
    else ([], s, some (batch :: rest))

/-- Normal loop exit (lines 505-510): `isTraining = false`;
`onTrainingEnd(!shouldStop)`; the app callback disposes the tensors;
`train` returns `!shouldStop`. -/
def finishRun (s : TrainState) : RunTrace E L :=
  { trace := [.trainingEnd (!s.shouldStop), .released]
    result := .finished (!s.shouldStop)
    final := { s with isTraining := false } }

/-- The epoch loop from `epoch`, fuelled by `rem` = `epochs - epoch`
(callers maintain this, so `rem = 0` is exactly the `epoch < epochs`
exit of the `for` loop). -/
def trainLoop (fit : Nat → Except E L) (epochs : Nat) :
    Nat → Nat → TrainState → List (List Action) → RunTrace E L
  | 0, _, s, _ => finishRun s
  | rem + 1, epoch, s, sched =>
    if s.shouldStop then
      -- `epoch < epochs && !this.shouldStop` fails on the stop flag
      finishRun s
    else
      -- `this.currentEpoch = epoch;`
      let s1 : TrainState := { s with currentEpoch := epoch }
      match pauseWait s1 sched with
      | (evs, s2, none) =>
        -- paused forever: no further events, no terminal callback
        { trace := evs, result := .hung, final := s2 }
      | (evs, s2, some sched2) =>
        if s2.shouldStop then
          -- `if (this.shouldStop) break;`
          let f : RunTrace E L := finishRun s2
          { trace := evs ++ f.trace, result := f.result, final := f.final }
        else
          match fit epoch with
          | .error e =>
            -- `model.fit` rejects: control calls during the failed fit still
            -- take effect, then the catch block runs (lines 511-517):
            -- `isTraining = false; onTrainingError(error); throw error;`
            -- and the app's onTrainingError disposes the tensors.
            let p := consume s2 sched2
            { trace := evs ++ .fitBegin epoch s2.isPaused s2.shouldStop ::
                (p.1 ++ [.trainingError e, .released])
              result := .errored e
              final := { p.2.1 with isTraining := false } }
          | .ok logs =>
            -- `model.fit` resolves; control calls issued during the fit take
            -- effect when it returns; then `onEpochEnd(epoch, epochs, {...})`.
            let p := consume s2 sched2
            let rest := trainLoop fit epochs rem (epoch + 1) p.2.1 p.2.2
            { trace := evs ++ .fitBegin epoch s2.isPaused s2.shouldStop ::
                (p.1 ++ .epochEnd epoch epochs logs :: rest.trace)
              result := rest.result
              final := rest.final }

/-- One full `ModelManager.train` call (composed with the app-level
callbacks of `handleStartTraining`): reset the flags, consume one batch at
the awaited model setup, then run the epoch loop. -/
def trainRun (fit : Nat → Except E L) (epochs : Nat)
    (sched : List (List Action)) : RunTrace E L :=
  let p := consume (E := E) (L := L) initialTrainState sched
  let r := trainLoop fit epochs epochs 0 p.2.1 p.2.2
  { trace := p.1 ++ r.trace, result := r.result, final := r.final }

/-! ### Trace observations used by the claims -/

/-- A terminal callback: `onTrainingEnd` or `onTrainingError`. -/
def Event.isTerminal : Event E L → Bool
  | .trainingEnd _ => true
  | .trainingError _ => true
  | _ => false

/-- The epoch indices of the ProgressEvents (`onEpochEnd` calls), in trace order. -/
def progressIndices (tr : List (Event E L)) : List Nat :=
  tr.filterMap fun ev =>
    match ev with
    | .epochEnd i _ _ => some i
    | _ => none

/-- The epoch indices of the issued `fit` calls, in trace order. -/
def fitIndices (tr : List (Event E L)) : List Nat :=
  tr.filterMap fun ev =>
    match ev with
    | .fitBegin i _ _ => some i
    | _ => none

/-- How many times the `xs`/`ys` tensor pair is disposed. -/
def releasedCount (tr : List (Event E L)) : Nat :=
  (tr.filter fun ev =>
    match ev with
    | .released => true
    | _ => false).length

/-! ### Basic trace lemmas -/

/-- A trace segment consisting solely of control-call events. -/
def AllCtl (l : List (Event E L)) : Prop :=
  ∀ ev ∈ l, ∃ a, ev = Event.ctl a

lemma AllCtl.append {l₁ l₂ : List (Event E L)} (h₁ : AllCtl l₁) (h₂ : AllCtl l₂) :
    AllCtl (l₁ ++ l₂) := by
  intro ev hev
  rcases List.mem_append.mp hev with h | h
  · exact h₁ ev h
  · exact h₂ ev h

@[simp] lemma progressIndices_nil : progressIndices ([] : List (Event E L)) = [] := rfl

@[simp] lemma progressIndices_append (a b : List (Event E L)) :
    progressIndices (a ++ b) = progressIndices a ++ progressIndices b :=
  List.filterMap_append a b _

@[simp] lemma fitIndices_nil : fitIndices ([] : List (Event E L)) = [] := rfl

@[simp] lemma fitIndices_append (a b : List (Event E L)) :
    fitIndices (a ++ b) = fitIndices a ++ fitIndices b :=
  List.filterMap_append a b _

@[simp] lemma releasedCount_nil : releasedCount ([] : List (Event E L)) = 0 := rfl

@[simp] lemma releasedCount_append (a b : List (Event E L)) :
    releasedCount (a ++ b) = releasedCount a + releasedCount b := by
  simp [releasedCount, List.filter_append]

@[simp] lemma progressIndices_cons_ctl (a : Action) (l : List (Event E L)) :
    progressIndices (Event.ctl a :: l) = progressIndices l := rfl

@[simp] lemma progressIndices_cons_fitBegin (n : Nat) (p q : Bool) (l : List (Event E L)) :
    progressIndices (Event.fitBegin n p q :: l) = progressIndices l := rfl

@[simp] lemma progressIndices_cons_epochEnd (i t : Nat) (lg : L) (l : List (Event E L)) :
    progressIndices (Event.epochEnd i t lg :: l) = i :: progressIndices l := rfl

@[simp] lemma progressIndices_cons_trainingEnd (b : Bool) (l : List (Event E L)) :
    progressIndices (Event.trainingEnd b :: l) = progressIndices l := rfl

@[simp] lemma progressIndices_cons_trainingError (e : E) (l : List (Event E L)) :
    progressIndices (Event.trainingError e :: l) = progressIndices l := rfl

@[simp] lemma progressIndices_cons_released (l : List (Event E L)) :
    progressIndices (Event.released :: l) = progressIndices l := rfl

@[simp] lemma fitIndices_cons_ctl (a : Action) (l : List (Event E L)) :
    fitIndices (Event.ctl a :: l) = fitIndices l := rfl

@[simp] lemma fitIndices_cons_fitBegin (n : Nat) (p q : Bool) (l : List (Event E L)) :
    fitIndices (Event.fitBegin n p q :: l) = n :: fitIndices l := rfl

@[simp] lemma fitIndices_cons_epochEnd (i t : Nat) (lg : L) (l : List (Event E L)) :
    fitIndices (Event.epochEnd i t lg :: l) = fitIndices l := rfl

@[simp] lemma fitIndices_cons_trainingEnd (b : Bool) (l : List (Event E L)) :
    fitIndices (Event.trainingEnd b :: l) = fitIndices l := rfl

@[simp] lemma fitIndices_cons_trainingError (e : E) (l : List (Event E L)) :
    fitIndices (Event.trainingError e :: l) = fitIndices l := rfl

@[simp] lemma fitIndices_cons_released (l : List (Event E L)) :
    fitIndices (Event.released :: l) = fitIndices l := rfl

@[simp] lemma releasedCount_cons_ctl (a : Action) (l : List (Event E L)) :
    releasedCount (Event.ctl a :: l) = releasedCount l := rfl

@[simp] lemma releasedCount_cons_fitBegin (n : Nat) (p q : Bool) (l : List (Event E L)) :
    releasedCount (Event.fitBegin n p q :: l) = releasedCount l := rfl

@[simp] lemma releasedCount_cons_epochEnd (i t : Nat) (lg : L) (l : List (Event E L)) :
    releasedCount (Event.epochEnd i t lg :: l) = releasedCount l := rfl

@[simp] lemma releasedCount_cons_trainingEnd (b : Bool) (l : List (Event E L)) :
    releasedCount (Event.trainingEnd b :: l) = releasedCount l := rfl

@[simp] lemma releasedCount_cons_trainingError (e : E) (l : List (Event E L)) :
    releasedCount (Event.trainingError e :: l) = releasedCount l := rfl

@[simp] lemma releasedCount_cons_released (l : List (Event E L)) :
    releasedCount (Event.released :: l) = releasedCount l + 1 := by
  simp [releasedCount, List.filter]

@[simp] lemma filterTerminal_cons_ctl (a : Action) (l : List (Event E L)) :
    (Event.ctl a :: l).filter Event.isTerminal = l.filter Event.isTerminal := rfl

@[simp] lemma filterTerminal_cons_fitBegin (n : Nat) (p q : Bool) (l : List (Event E L)) :
    (Event.fitBegin n p q :: l).filter Event.isTerminal = l.filter Event.isTerminal := rfl

@[simp] lemma filterTerminal_cons_epochEnd (i t : Nat) (lg : L) (l : List (Event E L)) :
    (Event.epochEnd i t lg :: l).filter Event.isTerminal = l.filter Event.isTerminal := rfl

@[simp] lemma filterTerminal_cons_trainingEnd (b : Bool) (l : List (Event E L)) :
    (Event.trainingEnd b :: l).filter Event.isTerminal =
      Event.trainingEnd b :: l.filter Event.isTerminal := rfl

@[simp] lemma filterTerminal_cons_trainingError (e : E) (l : List (Event E L)) :
    (Event.trainingError e :: l).filter Event.isTerminal =
      Event.trainingError e :: l.filter Event.isTerminal := rfl

@[simp] lemma filterTerminal_cons_released (l : List (Event E L)) :
    (Event.released :: l).filter Event.isTerminal = l.filter Event.isTerminal := rfl

lemma AllCtl.progressIndices_eq_nil {l : List (Event E L)} (h : AllCtl l) :
    progressIndices l = [] := by
  refine List.filterMap_eq_nil_iff.mpr fun ev hev => ?_
  rcases h ev hev with ⟨a, rfl⟩
  rfl

lemma AllCtl.fitIndices_eq_nil {l : List (Event E L)} (h : AllCtl l) :
    fitIndices l = [] := by
  refine List.filterMap_eq_nil_iff.mpr fun ev hev => ?_
  rcases h ev hev with ⟨a, rfl⟩
  rfl

lemma AllCtl.releasedCount_eq_zero {l : List (Event E L)} (h : AllCtl l) :
    releasedCount l = 0 := by
  simp only [releasedCount, List.length_eq_zero]
  refine List.filter_eq_nil_iff.mpr fun ev hev => ?_
  rcases h ev hev with ⟨a, rfl⟩
  simp

lemma AllCtl.filter_isTerminal {l : List (Event E L)} (h : AllCtl l) :
    l.filter Event.isTerminal = [] := by
  refine List.filter_eq_nil_iff.mpr fun ev hev => ?_
  rcases h ev hev with ⟨a, rfl⟩
  simp [Event.isTerminal]

lemma AllCtl.not_fitBegin {l : List (Event E L)} (h : AllCtl l)
    {N : Nat} {p q : Bool} : Event.fitBegin N p q ∉ l := by
  intro hmem
  rcases h _ hmem with ⟨a, ha⟩
  exact Event.noConfusion ha

/-! ### Flag-propagation lemmas for the control machinery -/

lemma applyAction_shouldStop_mono {s : TrainState} {a : Action}
    (h : s.shouldStop = true) : (applyAction s a).shouldStop = true := by
  cases a <;> simp [applyAction, h]

lemma applyActions_allCtl (s : TrainState) (batch : List Action) :
    AllCtl (applyActions (E := E) (L := L) s batch).1 := by
  induction batch generalizing s with
  | nil => intro ev hev; simp [applyActions] at hev
  | cons a rest ih =>
    intro ev hev
    simp only [applyActions, List.mem_cons] at hev
    rcases hev with rfl | h
    · exact ⟨a, rfl⟩
    · exact ih (applyAction s a) ev h

lemma applyActions_shouldStop_mono {s : TrainState} {batch : List Action}
    (h : s.shouldStop = true) :
    ((applyActions (E := E) (L := L) s batch).2).shouldStop = true := by
  induction batch generalizing s with
  | nil => simpa [applyActions] using h
  | cons a rest ih =>
    simpa [applyActions] using ih (applyAction_shouldStop_mono h)

lemma applyActions_stop_of_mem {s : TrainState} {batch : List Action}
    (h : (Event.ctl Action.stop : Event E L) ∈ (applyActions s batch).1) :
    ((applyActions (E := E) (L := L) s batch).2).shouldStop = true := by
  induction batch generalizing s with
  | nil => simp [applyActions] at h
  | cons a rest ih =>
    simp only [applyActions, List.mem_cons] at h
    rcases h with h | h
    · have ha : a = Action.stop := by
        cases a <;> simp_all
      subst ha
      simpa [applyActions] using
        @applyActions_shouldStop_mono E L (applyAction s Action.stop) rest
          (by simp [applyAction])
    · simpa [applyActions] using ih h

lemma consume_allCtl (s : TrainState) (sched : List (List Action)) :
    AllCtl (consume (E := E) (L := L) s sched).1 := by
  cases sched with
  | nil => intro ev hev; simp [consume] at hev
  | cons batch rest =>
    intro ev hev
    exact applyActions_allCtl s batch ev (by simpa [consume] using hev)

lemma consume_stop_of_mem {s : TrainState} {sched : List (List Action)}
    (h : (Event.ctl Action.stop : Event E L) ∈ (consume s sched).1) :
    ((consume (E := E) (L := L) s sched).2.1).shouldStop = true := by
  cases sched with
  | nil => simp [consume] at h
  | cons batch rest =>
    simpa [consume] using applyActions_stop_of_mem (by simpa [consume] using h)

lemma pauseWait_stopped (s : TrainState) (sched : List (List Action))
    (h : s.shouldStop = true) :
    pauseWait (E := E) (L := L) s sched = ([], s, some sched) := by
  cases sched <;> simp [pauseWait, h]

lemma pauseWait_allCtl (s : TrainState) (sched : List (List Action)) :
    AllCtl (pauseWait (E := E) (L := L) s sched).1 := by
  induction sched generalizing s with
  | nil =>
    intro ev hev
    by_cases hg : (s.isPaused && !s.shouldStop) = true <;> simp [pauseWait, hg] at hev
  | cons batch rest ih =>
    intro ev hev
    by_cases hg : (s.isPaused && !s.shouldStop) = true
    · simp only [pauseWait, hg, if_true] at hev
      rcases List.mem_append.mp hev with h | h
      · exact applyActions_allCtl s batch ev h
      · exact ih _ ev h
    · simp [pauseWait, hg] at hev

lemma pauseWait_some_guard {s : TrainState} {sched : List (List Action)}
    {evs : List (Event E L)} {s' : TrainState} {sched' : List (List Action)}
    (h : pauseWait (E := E) (L := L) s sched = (evs, s', some sched')) :
    (s'.isPaused && !s'.shouldStop) = false := by
  induction sched generalizing s evs sched' with
  | nil =>
    by_cases hg : (s.isPaused && !s.shouldStop) = true
    · simp [pauseWait, hg] at h
    · simp only [pauseWait, hg, if_false] at h
      obtain ⟨rfl, rfl, rfl⟩ := by
        simpa [Prod.ext_iff] using h
      simpa using hg
  | cons batch rest ih =>
    by_cases hg : (s.isPaused && !s.shouldStop) = true
    · simp only [pauseWait, hg, if_true] at h
      obtain ⟨-, h2⟩ := by
        simpa [Prod.ext_iff] using h
      exact ih (by rw [← h2.1, ← h2.2])
    · simp only [pauseWait, hg, if_false] at h
      obtain ⟨rfl, rfl, rfl⟩ := by
        simpa [Prod.ext_iff] using h
      simpa using hg

lemma pauseWait_stop_of_mem {s : TrainState} {sched : List (List Action)}
    (h : (Event.ctl Action.stop : Event E L) ∈ (pauseWait s sched).1) :
    ((pauseWait (E := E) (L := L) s sched).2.1).shouldStop = true ∧
      ((pauseWait (E := E) (L := L) s sched).2.2).isSome = true := by
  induction sched generalizing s with
  | nil =>
    by_cases hg : (s.isPaused && !s.shouldStop) = true <;> simp [pauseWait, hg] at h
  | cons batch rest ih =>
    by_cases hg : (s.isPaused && !s.shouldStop) = true
    · simp only [pauseWait, hg, if_true] at h ⊢
      rcases List.mem_append.mp h with hmem | hmem
      · -- the stop lands in this batch: the wait guard now fails and the
        -- recursive wait returns immediately
        have hstop := applyActions_stop_of_mem (E := E) (L := L) hmem
        rw [pauseWait_stopped _ rest hstop]
        simpa using hstop
      · exact ih hmem
    · simp [pauseWait, hg] at h

lemma trainLoop_stopped (fit : Nat → Except E L) (epochs rem epoch : Nat)
    (s : TrainState) (sched : List (List Action)) (h : s.shouldStop = true) :
    trainLoop fit epochs rem epoch s sched = finishRun s := by
  cases rem <;> simp [trainLoop, h]

/-! ### Main invariants of the epoch loop -/

/-- Every `fit` call is issued with the pause flag cleared and the stop
flag cleared: the loop checks `shouldStop` right before the fit, and the
pause wait cannot exit with `isPaused` still set unless `shouldStop` is set. -/
lemma trainLoop_fitBegin_flags (fit : Nat → Except E L) (epochs : Nat) :
    ∀ (rem epoch : Nat) (s : TrainState) (sched : List (List Action))
      {N : Nat} {p q : Bool},
      Event.fitBegin N p q ∈ (trainLoop fit epochs rem epoch s sched).trace →
      p = false ∧ q = false := by
  intro rem
  induction rem with
  | zero =>
    intro epoch s sched N p q h
    simp [trainLoop, finishRun] at h
  | succ rem ih =>
    intro epoch s sched N p q h
    obtain ⟨st, sp, ss, ce⟩ := s
    cases ss with
    | true => simp [trainLoop, finishRun] at h
    | false =>
      rcases hpw : pauseWait (E := E) (L := L) ⟨st, sp, false, epoch⟩ sched
        with ⟨evs, s2, osched⟩
      have hevs : AllCtl evs := by
        have h' := pauseWait_allCtl (E := E) (L := L) ⟨st, sp, false, epoch⟩ sched
        rw [hpw] at h'; exact h'
      cases osched with
      | none =>
        simp only [trainLoop, Bool.false_eq_true, if_false, hpw] at h
        exact absurd h hevs.not_fitBegin
      | some sched2 =>
        by_cases h2 : s2.shouldStop = true
        · simp only [trainLoop, Bool.false_eq_true, if_false, hpw, h2, if_true,
            finishRun, List.mem_append, List.mem_cons,
            List.not_mem_nil, or_false] at h
          rcases h with h | h | h
          · exact absurd h hevs.not_fitBegin
          · exact absurd h (by simp)
          · exact absurd h (by simp)
        · have hpaused : s2.isPaused = false := by
            have hg := pauseWait_some_guard hpw
            simpa [h2] using hg
          have hc1 : AllCtl (consume (E := E) (L := L) s2 sched2).1 :=
            consume_allCtl s2 sched2
          have h2' : s2.shouldStop = false := by simpa using h2
          cases hfit : fit epoch with
          | error e =>
            simp only [trainLoop, Bool.false_eq_true, if_false, hpw, h2, h2',
              if_true, hfit, List.mem_append, List.mem_cons,
              List.not_mem_nil, or_false] at h
            rcases h with h | h | h | h | h
            · exact absurd h hevs.not_fitBegin
            · obtain ⟨-, hp, hq⟩ := by simpa using h
              refine ⟨?_, ?_⟩
              · rw [hp]; exact hpaused
              · rw [hq]
            · exact absurd h hc1.not_fitBegin
            · exact absurd h (by simp)
            · exact absurd h (by simp)
          | ok logs =>
            simp only [trainLoop, Bool.false_eq_true, if_false, hpw, h2, h2',
              if_true, hfit, List.mem_append, List.mem_cons] at h
            rcases h with h | h | h | h | h
            · exact absurd h hevs.not_fitBegin
            · obtain ⟨-, hp, hq⟩ := by simpa using h
              refine ⟨?_, ?_⟩
              · rw [hp]; exact hpaused
              · rw [hq]
            · exact absurd h hc1.not_fitBegin
            · exact absurd h (by simp)
            · exact ih (epoch + 1) _ _ h

/-- Shape of a run that returns `completed = true`: the stop flag was never
observed, every remaining epoch ran, the ProgressEvents carry the indices
`epoch, epoch+1, …` in order, and the trace ends with the single terminal
`onTrainingEnd(true)` followed by the tensor disposal. -/
lemma trainLoop_completed (fit : Nat → Except E L) (epochs : Nat) :
    ∀ (rem epoch : Nat) (s : TrainState) (sched : List (List Action)),
      (trainLoop fit epochs rem epoch s sched).result = .finished true →
      progressIndices (trainLoop fit epochs rem epoch s sched).trace =
        List.range' epoch rem ∧
      ∃ pre, (trainLoop fit epochs rem epoch s sched).trace =
          pre ++ [Event.trainingEnd true, Event.released] ∧
        pre.filter Event.isTerminal = [] ∧ releasedCount pre = 0 := by
  intro rem
  induction rem with
  | zero =>
    intro epoch s sched hres
    have hb : s.shouldStop = false := by
      simp only [trainLoop, finishRun, RunResult.finished.injEq] at hres
      simpa using hres
    refine ⟨by simp [trainLoop, finishRun, progressIndices], [], ?_, by simp, rfl⟩
    simp [trainLoop, finishRun, hb]
  | succ rem ih =>
    intro epoch s sched hres
    obtain ⟨st, sp, ss, ce⟩ := s
    cases ss with
    | true =>
      rw [trainLoop_stopped _ _ _ _ _ _ rfl] at hres
      simp [finishRun] at hres
    | false =>
      rcases hpw : pauseWait (E := E) (L := L) ⟨st, sp, false, epoch⟩ sched
        with ⟨evs, s2, osched⟩
      have hevs : AllCtl evs := by
        have h' := pauseWait_allCtl (E := E) (L := L) ⟨st, sp, false, epoch⟩ sched
        rw [hpw] at h'; exact h'
      cases osched with
      | none =>
        simp [trainLoop, hpw] at hres
      | some sched2 =>
        by_cases h2 : s2.shouldStop = true
        · simp [trainLoop, hpw, h2, finishRun] at hres
        · have h2' : s2.shouldStop = false := by simpa using h2
          cases hfit : fit epoch with
          | error e =>
            simp [trainLoop, hpw, h2, hfit] at hres
          | ok logs =>
            have hres' :
                (trainLoop fit epochs rem (epoch + 1)
                  (consume (E := E) (L := L) s2 sched2).2.1
                  (consume (E := E) (L := L) s2 sched2).2.2).result = .finished true := by
              simpa [trainLoop, hpw, h2, hfit] using hres
            obtain ⟨hprog, pre', hpre', hterm', hrel'⟩ := ih (epoch + 1) _ _ hres'
            have hc1 : AllCtl (consume (E := E) (L := L) s2 sched2).1 :=
              consume_allCtl s2 sched2
            constructor
            · simp only [trainLoop, Bool.false_eq_true, if_false, hpw, h2, h2',
                if_true, hfit]
              rw [List.range'_succ]
              simp [hevs.progressIndices_eq_nil, hc1.progressIndices_eq_nil, hprog]
            · refine ⟨evs ++ Event.fitBegin epoch s2.isPaused s2.shouldStop ::
                ((consume (E := E) (L := L) s2 sched2).1 ++
                  Event.epochEnd epoch epochs logs :: pre'), ?_, ?_, ?_⟩
              · simp only [trainLoop, Bool.false_eq_true, if_false, hpw, h2, h2',
                  if_true, hfit]
                simp [hpre']
              · simp [List.filter_append, hevs.filter_isTerminal,
                  hc1.filter_isTerminal, hterm']
              · simp [hevs.releasedCount_eq_zero, hc1.releasedCount_eq_zero, hrel']

/-- Resource safety: on every run that reaches a terminal callback (i.e. is
not parked forever in the pause wait), the `xs`/`ys` tensor pair is disposed
exactly once. -/
lemma trainLoop_releasedCount (fit : Nat → Except E L) (epochs : Nat) :
    ∀ (rem epoch : Nat) (s : TrainState) (sched : List (List Action)),
      (trainLoop fit epochs rem epoch s sched).result ≠ .hung →
      releasedCount (trainLoop fit epochs rem epoch s sched).trace = 1 := by
  intro rem
  induction rem with
  | zero =>
    intro epoch s sched _
    simp [trainLoop, finishRun]
  | succ rem ih =>
    intro epoch s sched hres
    obtain ⟨st, sp, ss, ce⟩ := s
    cases ss with
    | true => simp [trainLoop, finishRun]
    | false =>
      rcases hpw : pauseWait (E := E) (L := L) ⟨st, sp, false, epoch⟩ sched
        with ⟨evs, s2, osched⟩
      have hevs : AllCtl evs := by
        have h' := pauseWait_allCtl (E := E) (L := L) ⟨st, sp, false, epoch⟩ sched
        rw [hpw] at h'; exact h'
      cases osched with
      | none =>
        exact absurd (by simp [trainLoop, hpw]) hres
      | some sched2 =>
        by_cases h2 : s2.shouldStop = true
        · simp [trainLoop, hpw, h2, finishRun, hevs.releasedCount_eq_zero]
        · have h2' : s2.shouldStop = false := by simpa using h2
          have hc1 : AllCtl (consume (E := E) (L := L) s2 sched2).1 :=
            consume_allCtl s2 sched2
          cases hfit : fit epoch with
          | error e =>
            simp [trainLoop, hpw, h2, hfit, hevs.releasedCount_eq_zero,
              hc1.releasedCount_eq_zero]
          | ok logs =>
            have hres' :
                (trainLoop fit epochs rem (epoch + 1)
                  (consume (E := E) (L := L) s2 sched2).2.1
                  (consume (E := E) (L := L) s2 sched2).2.2).result ≠ .hung := by
              intro hcon
              exact hres (by simp [trainLoop, hpw, h2, hfit, hcon])
            simp [trainLoop, hpw, h2, hfit, hevs.releasedCount_eq_zero,
              hc1.releasedCount_eq_zero, ih (epoch + 1) _ _ hres']

/-- Failure semantics: if `fit` throws at epoch `N` and the run reaches that
fit call, then the loop emitted exactly the ProgressEvents for the epochs
before `N`, attempted each epoch from the starting one up to `N` exactly
once, ended with the single terminal `onTrainingError(e)` carrying the
thrown error unmodified, disposed the tensors, and re-threw `e`. -/
lemma trainLoop_error (fit : Nat → Except E L) (epochs : Nat) :
    ∀ (rem epoch : Nat) (s : TrainState) (sched : List (List Action))
      {N : Nat} {p q : Bool} {e : E},
      fit N = .error e →
      Event.fitBegin N p q ∈ (trainLoop fit epochs rem epoch s sched).trace →
      epoch ≤ N ∧
      (trainLoop fit epochs rem epoch s sched).result = .errored e ∧
      progressIndices (trainLoop fit epochs rem epoch s sched).trace =
        List.range' epoch (N - epoch) ∧
      fitIndices (trainLoop fit epochs rem epoch s sched).trace =
        List.range' epoch (N + 1 - epoch) ∧
      (trainLoop fit epochs rem epoch s sched).trace.filter Event.isTerminal =
        [Event.trainingError e] ∧
      ∃ pre, (trainLoop fit epochs rem epoch s sched).trace =
        pre ++ [Event.trainingError e, Event.released] := by
  intro rem
  induction rem with
  | zero =>
    intro epoch s sched N p q e hN h
    simp [trainLoop, finishRun] at h
  | succ rem ih =>
    intro epoch s sched N p q e hN h
    obtain ⟨st, sp, ss, ce⟩ := s
    cases ss with
    | true => simp [trainLoop, finishRun] at h
    | false =>
      rcases hpw : pauseWait (E := E) (L := L) ⟨st, sp, false, epoch⟩ sched
        with ⟨evs, s2, osched⟩
      have hevs : AllCtl evs := by
        have h' := pauseWait_allCtl (E := E) (L := L) ⟨st, sp, false, epoch⟩ sched
        rw [hpw] at h'; exact h'
      cases osched with
      | none =>
        simp only [trainLoop, Bool.false_eq_true, if_false, hpw] at h
        exact absurd h hevs.not_fitBegin
      | some sched2 =>
        by_cases h2 : s2.shouldStop = true
        · simp only [trainLoop, Bool.false_eq_true, if_false, hpw, h2, if_true,
            finishRun, List.mem_append, List.mem_cons,
            List.not_mem_nil, or_false] at h
          rcases h with h | h | h
          · exact absurd h hevs.not_fitBegin
          · exact absurd h (by simp)
          · exact absurd h (by simp)
        · have h2' : s2.shouldStop = false := by simpa using h2
          have hc1 : AllCtl (consume (E := E) (L := L) s2 sched2).1 :=
            consume_allCtl s2 sched2
          cases hfit : fit epoch with
          | error e' =>
            -- the fit call that the trace reached is this one: N = epoch
            have hmem := h
            simp only [trainLoop, Bool.false_eq_true, if_false, hpw, h2, h2',
              if_true, hfit, List.mem_append, List.mem_cons,
              List.not_mem_nil, or_false] at hmem
            have hNe : N = epoch := by
              rcases hmem with hm | hm | hm | hm | hm
              · exact absurd hm hevs.not_fitBegin
              · exact (Event.fitBegin.inj hm).1
              · exact absurd hm hc1.not_fitBegin
              · exact absurd hm (by simp)
              · exact absurd hm (by simp)
            subst hNe
            have he : e' = e := by
              rw [hN] at hfit
              injection hfit with he'
              exact he'.symm
            subst he
            refine ⟨le_refl N, ?_, ?_, ?_, ?_,
              ⟨evs ++ Event.fitBegin N s2.isPaused s2.shouldStop ::
                (consume (E := E) (L := L) s2 sched2).1, ?_⟩⟩
            · simp [trainLoop, hpw, h2, hfit]
            · simp [trainLoop, hpw, h2, h2', hfit, hevs.progressIndices_eq_nil,
                hc1.progressIndices_eq_nil]
            · simp [trainLoop, hpw, h2, h2', hfit, hevs.fitIndices_eq_nil,
                hc1.fitIndices_eq_nil, List.range'_one]
            · simp [trainLoop, hpw, h2, h2', hfit, hevs.filter_isTerminal,
                hc1.filter_isTerminal]
            · simp [trainLoop, hpw, h2, h2', hfit]
          | ok logs =>
            -- this epoch's fit succeeded, so the failing fit is deeper in
            have hmem := h
            simp only [trainLoop, Bool.false_eq_true, if_false, hpw, h2, h2',
              if_true, hfit, List.mem_append, List.mem_cons] at hmem
            have hrest : Event.fitBegin N p q ∈
                (trainLoop fit epochs rem (epoch + 1)
                  (consume (E := E) (L := L) s2 sched2).2.1
                  (consume (E := E) (L := L) s2 sched2).2.2).trace := by
              rcases hmem with hm | hm | hm | hm | hm
              · exact absurd hm hevs.not_fitBegin
              · have hNe : N = epoch := (Event.fitBegin.inj hm).1
                rw [← hNe, hN] at hfit
                exact absurd hfit (by simp)
              · exact absurd hm hc1.not_fitBegin
              · exact absurd hm (by simp)
              · exact hm
            obtain ⟨hle, hres', hprog', hfits', hterm', pre', hpre'⟩ :=
              ih (epoch + 1) _ _ hN hrest
            have hlt : epoch < N := hle
            refine ⟨le_of_lt hlt, ?_, ?_, ?_, ?_,
              ⟨evs ++ Event.fitBegin epoch s2.isPaused s2.shouldStop ::
                ((consume (E := E) (L := L) s2 sched2).1 ++
                  Event.epochEnd epoch epochs logs :: pre'), ?_⟩⟩
            · simp [trainLoop, hpw, h2, hfit, hres']
            · have harr : N - epoch = (N - (epoch + 1)) + 1 := by omega
              rw [harr, List.range'_succ]
              simp [trainLoop, hpw, h2, h2', hfit, hevs.progressIndices_eq_nil,
                hc1.progressIndices_eq_nil, hprog']
            · have harr : N + 1 - epoch = (N + 1 - (epoch + 1)) + 1 := by omega
              rw [harr, List.range'_succ]
              simp [trainLoop, hpw, h2, h2', hfit, hevs.fitIndices_eq_nil,
                hc1.fitIndices_eq_nil, hfits']
            · simp [trainLoop, hpw, h2, h2', hfit, hevs.filter_isTerminal,
                hc1.filter_isTerminal, hterm', List.filter_append]
            · simp [trainLoop, hpw, h2, h2', hfit, hpre']

/-- Where can a distinguished element sit when a cons-split equals an
append of two segments. -/
lemma split_middle {α : Type} {pre post A B : List α} {x : α}
    (h : pre ++ x :: post = A ++ B) :
    (∃ A2, A = pre ++ x :: A2 ∧ post = A2 ++ B) ∨
    (∃ pre2, pre = A ++ pre2 ∧ B = pre2 ++ x :: post) := by
  rcases List.append_eq_append_iff.mp h with ⟨a', hA, hb⟩ | ⟨c', hpre, hd⟩
  · cases a' with
    | nil =>
      right
      refine ⟨[], by simp [hA], by simpa using hb.symm⟩
    | cons y a2 =>
      left
      obtain ⟨rfl, hpost⟩ : x = y ∧ post = a2 ++ B := by
        simpa using hb
      exact ⟨a2, by simp [hA], hpost⟩
  · right
    exact ⟨c', hpre, hd⟩

lemma mem_of_split {α : Type} {l pre post : List α} {x : α}
    (h : l = pre ++ x :: post) : x ∈ l := by
  rw [h]
  exact List.mem_append_right _ (List.mem_cons_self _ _)

lemma AllCtl.of_suffix {evs pre A2 : List (Event E L)} {x : Event E L}
    (hevs : AllCtl evs) (hA : evs = pre ++ x :: A2) : AllCtl A2 := by
  intro ev hev
  exact hevs ev (by rw [hA]; simp [hev])

/-- Cancellation wins and is latched: once a `stopTraining` call has taken
effect, no further `fit` is issued, at most one further ProgressEvent is
emitted (for a fit already in flight), and a terminal callback follows. -/
lemma trainLoop_stop_split (fit : Nat → Except E L) (epochs : Nat) :
    ∀ (rem epoch : Nat) (s : TrainState) (sched : List (List Action))
      (pre post : List (Event E L)),
      (trainLoop fit epochs rem epoch s sched).trace =
        pre ++ Event.ctl Action.stop :: post →
      fitIndices post = [] ∧ (progressIndices post).length ≤ 1 ∧
      ∃ t ∈ post, t.isTerminal = true := by
  intro rem
  induction rem with
  | zero =>
    intro epoch s sched pre post h
    have := mem_of_split h
    simp [trainLoop, finishRun] at this
  | succ rem ih =>
    intro epoch s sched pre post h
    obtain ⟨st, sp, ss, ce⟩ := s
    cases ss with
    | true =>
      have := mem_of_split h
      simp [trainLoop, finishRun] at this
    | false =>
      rcases hpw : pauseWait (E := E) (L := L) ⟨st, sp, false, epoch⟩ sched
        with ⟨evs, s2, osched⟩
      have hevs : AllCtl evs := by
        have h' := pauseWait_allCtl (E := E) (L := L) ⟨st, sp, false, epoch⟩ sched
        rw [hpw] at h'; exact h'
      cases osched with
      | none =>
        -- a stop consumed inside the pause wait always releases the wait,
        -- so the hung trace contains no stop event
        have hmem := mem_of_split h
        simp only [trainLoop, Bool.false_eq_true, if_false, hpw] at hmem
        have := @pauseWait_stop_of_mem E L ⟨st, sp, false, epoch⟩ sched
          (by rw [hpw]; exact hmem)
        rw [hpw] at this
        simpa using this.2
      | some sched2 =>
        by_cases h2 : s2.shouldStop = true
        · -- `break` path: trace = evs ++ [trainingEnd false, released]
          have htr : (trainLoop fit epochs (rem + 1) epoch
              ⟨st, sp, false, ce⟩ sched).trace =
              evs ++ [Event.trainingEnd (!s2.shouldStop), Event.released] := by
            simp [trainLoop, hpw, h2, finishRun]
          rw [htr] at h
          rcases split_middle h.symm with ⟨A2, hA, hpost⟩ | ⟨pre2, -, hB⟩
          · have hA2 : AllCtl A2 := hevs.of_suffix hA
            refine ⟨?_, ?_, Event.trainingEnd (!s2.shouldStop), ?_, rfl⟩
            · simp [hpost, hA2.fitIndices_eq_nil]
            · simp [hpost, hA2.progressIndices_eq_nil]
            · rw [hpost]; simp
          · exact absurd (mem_of_split hB) (by simp)
        · have h2' : s2.shouldStop = false := by simpa using h2
          have hc1 : AllCtl (consume (E := E) (L := L) s2 sched2).1 :=
            consume_allCtl s2 sched2
          have hevs_nostop : (Event.ctl Action.stop : Event E L) ∉ evs := by
            intro hmem
            have := @pauseWait_stop_of_mem E L ⟨st, sp, false, epoch⟩ sched
              (by rw [hpw]; exact hmem)
            rw [hpw] at this
            exact h2 this.1
          cases hfit : fit epoch with
          | error e =>
            have htr : (trainLoop fit epochs (rem + 1) epoch
                ⟨st, sp, false, ce⟩ sched).trace =
                evs ++ Event.fitBegin epoch s2.isPaused s2.shouldStop ::
                  ((consume (E := E) (L := L) s2 sched2).1 ++
                    [Event.trainingError e, Event.released]) := by
              simp [trainLoop, hpw, h2, hfit]
            rw [htr] at h
            rcases split_middle h.symm with ⟨A2, hA, -⟩ | ⟨pre2, -, hB⟩
            · exact absurd (mem_of_split hA) hevs_nostop
            · cases pre2 with
              | nil =>
                exact absurd (List.head_eq_of_cons_eq hB.symm) (by simp)
              | cons y pre3 =>
                obtain ⟨-, hB2⟩ : y = Event.fitBegin epoch s2.isPaused s2.shouldStop ∧
                    (consume (E := E) (L := L) s2 sched2).1 ++
                      [Event.trainingError e, Event.released] =
                      pre3 ++ Event.ctl Action.stop :: post := by
                  have := hB
                  simp only [List.cons_append, List.cons.injEq] at this
                  exact ⟨this.1.symm, this.2⟩
                rcases split_middle hB2.symm with ⟨A2, hA, hpost⟩ | ⟨pre4, -, hB3⟩
                · have hA2 : AllCtl A2 := hc1.of_suffix hA
                  refine ⟨?_, ?_, Event.trainingError e, ?_, rfl⟩
                  · simp [hpost, hA2.fitIndices_eq_nil]
                  · simp [hpost, hA2.progressIndices_eq_nil]
                  · rw [hpost]; simp
                · exact absurd (mem_of_split hB3) (by simp)
          | ok logs =>
            have htr : (trainLoop fit epochs (rem + 1) epoch
                ⟨st, sp, false, ce⟩ sched).trace =
                evs ++ Event.fitBegin epoch s2.isPaused s2.shouldStop ::
                  ((consume (E := E) (L := L) s2 sched2).1 ++
                    Event.epochEnd epoch epochs logs ::
                      (trainLoop fit epochs rem (epoch + 1)
                        (consume (E := E) (L := L) s2 sched2).2.1
                        (consume (E := E) (L := L) s2 sched2).2.2).trace) := by
              simp [trainLoop, hpw, h2, hfit]
            rw [htr] at h
            rcases split_middle h.symm with ⟨A2, hA, -⟩ | ⟨pre2, -, hB⟩
            · exact absurd (mem_of_split hA) hevs_nostop
            · cases pre2 with
              | nil =>
                exact absurd (List.head_eq_of_cons_eq hB.symm) (by simp)
              | cons y pre3 =>
                obtain ⟨-, hB2⟩ : y = Event.fitBegin epoch s2.isPaused s2.shouldStop ∧
                    (consume (E := E) (L := L) s2 sched2).1 ++
                      Event.epochEnd epoch epochs logs ::
                        (trainLoop fit epochs rem (epoch + 1)
                          (consume (E := E) (L := L) s2 sched2).2.1
                          (consume (E := E) (L := L) s2 sched2).2.2).trace =
                      pre3 ++ Event.ctl Action.stop :: post := by
                  have := hB
                  simp only [List.cons_append, List.cons.injEq] at this
                  exact ⟨this.1.symm, this.2⟩
                rcases split_middle hB2.symm with ⟨A2, hA, hpost⟩ | ⟨pre4, -, hB3⟩
                · -- the stop was consumed during this epoch's fit: the
                  -- recursive loop starts stopped and finishes immediately
                  have hstop3 : ((consume (E := E) (L := L) s2 sched2).2.1).shouldStop = true :=
                    consume_stop_of_mem (mem_of_split hA)
                  have hrest := trainLoop_stopped fit epochs rem (epoch + 1)
                    (consume (E := E) (L := L) s2 sched2).2.1
                    (consume (E := E) (L := L) s2 sched2).2.2 hstop3
                  have hA2 : AllCtl A2 := hc1.of_suffix hA
                  rw [hrest] at hpost
                  refine ⟨?_, ?_,
                    Event.trainingEnd (!((consume (E := E) (L := L) s2 sched2).2.1).shouldStop),
                    ?_, rfl⟩
                  · simp [hpost, finishRun, hA2.fitIndices_eq_nil]
                  · simp [hpost, finishRun, hA2.progressIndices_eq_nil]
                  · rw [hpost]; simp [finishRun]
                · cases pre4 with
                  | nil =>
                    exact absurd (List.head_eq_of_cons_eq hB3.symm) (by simp)
                  | cons z pre5 =>
                    obtain ⟨-, hB4⟩ : z = Event.epochEnd epoch epochs logs ∧
                        (trainLoop fit epochs rem (epoch + 1)
                          (consume (E := E) (L := L) s2 sched2).2.1
                          (consume (E := E) (L := L) s2 sched2).2.2).trace =
                          pre5 ++ Event.ctl Action.stop :: post := by
                      have := hB3
                      simp only [List.cons_append, List.cons.injEq] at this
                      exact ⟨this.1.symm, this.2⟩
                    exact ih (epoch + 1) _ _ pre5 post hB4

/-! ## handleStartTraining (app.js lines 489-598)

The handler's guard and validation phase:

```
if (state.isTraining) return;                       // silent, no toast, no throw
const summary = await storage.getDataSummary();
if (summary.numClasses < 2)  { showToast('You need at least 2 classes to train', 'warning'); return; }
if (summary.totalImages < 4) { showToast('You need at least 4 images to train', 'warning'); return; }
... prepareTrainingData ...                          // tensors allocated only here
state.isTraining = true; state.isPaused = false;
await modelManager.train(...)                        // resets the manager flags
```
-/

/-- The app-level `state` fields relevant to training control. -/
structure AppState where
  classes : List ClassRec
  isTraining : Bool
  isPaused : Bool
  deriving DecidableEq

/-- What `handleStartTraining` did, branch by branch of the source. -/
inductive StartOutcome where
  /-- the guard `if (state.isTraining) return;` fired — the call returns with no toast,
  no thrown error, and no state change -/
  | busyNoop
  /-- fewer than 2 classes: warning toast, return -/
  | rejectedClasses
  /-- fewer than 4 total images: warning toast, return -/
  | rejectedImages
  /-- validation passed: tensors are prepared and training begins -/
  | started
  deriving DecidableEq

/-- Whether the branch surfaces a warning to the user
(`showToast(..., 'warning')`). -/
def StartOutcome.emitsWarningToast : StartOutcome → Bool
  | .rejectedClasses => true
  | .rejectedImages => true
  | _ => false

structure StartResult where
  outcome : StartOutcome
  app : AppState
  mgr : TrainState
  tensorsAllocated : Bool
  deriving DecidableEq

/-- The guard-and-validation phase of `handleStartTraining`.  `mgr` is the
`ModelManager` flag state of any session in flight; on the `started` branch
`modelManager.train` resets it (model.js lines 451-454) and the `xs`/`ys`
tensors have been allocated by `prepareTrainingData`. -/
def handleStartTraining (app : AppState) (mgr : TrainState) (st : Store) :
    StartResult :=
  if app.isTraining then
    ⟨.busyNoop, app, mgr, false⟩
  else
    let summary := st.getDataSummary
    if summary.numClasses < 2 then
      ⟨.rejectedClasses, app, mgr, false⟩
    else if summary.totalImages < 4 then
      ⟨.rejectedImages, app, mgr, false⟩
    else
      ⟨.started, { app with isTraining := true, isPaused := false },
        initialTrainState, true⟩

/-! ## Store lemmas for the deletion cascade and the data summary -/

lemma foldl_deleteImage_classes (l : List ImageRec) (st : Store) :
    (l.foldl (fun s img => s.deleteImage img.id) st).classes = st.classes := by
  induction l generalizing st with
  | nil => rfl
  | cons x l ih => simpa [Store.deleteImage] using ih (st.deleteImage x.id)

lemma mem_foldl_deleteImage {l : List ImageRec} {st : Store} {img : ImageRec}
    (h : img ∈ (l.foldl (fun s img => s.deleteImage img.id) st).images) :
    img ∈ st.images ∧ ∀ x ∈ l, img.id ≠ x.id := by
  induction l generalizing st with
  | nil => simpa using h
  | cons x l ih =>
    obtain ⟨hin, hall⟩ := ih h
    have hin' : img ∈ st.images ∧ ¬ img.id = x.id := by
      simpa [Store.deleteImage] using hin
    refine ⟨hin'.1, fun y hy => ?_⟩
    rcases List.mem_cons.mp hy with rfl | hy
    · exact hin'.2
    · exact hall y hy

lemma deleteImagesByClass_classes (st : Store) (cid : Nat) :
    (st.deleteImagesByClass cid).classes = st.classes :=
  foldl_deleteImage_classes _ st

lemma deleteImagesByClass_no_images (st : Store) (cid : Nat) :
    ∀ img ∈ (st.deleteImagesByClass cid).images, img.classId ≠ cid := by
  intro img hmem hc
  obtain ⟨hin, hall⟩ := mem_foldl_deleteImage hmem
  have : img ∈ st.getImagesByClass cid := by
    simp [Store.getImagesByClass, hin, hc]
  exact hall img this rfl

lemma setKey_same (m : Nat → Option Nat) (k v : Nat) : setKey m k v k = some v := by
  simp [setKey]

lemma setKey_other (m : Nat → Option Nat) {k x : Nat} (v : Nat) (h : x ≠ k) :
    setKey m k v x = m x := by
  simp [setKey, h]

lemma foldl_initCounts_apply (cs : List ClassRec) (m : Nat → Option Nat) (k : Nat) :
    (cs.foldl (fun m c => setKey m c.id 0) m) k =
      if cs.any (fun c => c.id = k) then some 0 else m k := by
  induction cs generalizing m with
  | nil => simp
  | cons c cs ih =>
    rw [List.foldl_cons, ih]
    by_cases hk : c.id = k
    · simp [hk, setKey_same]
    · have hk' : k ≠ c.id := fun h => hk h.symm
      simp [hk, setKey_other _ _ hk']

lemma initClassCounts_apply (cs : List ClassRec) (k : Nat) :
    initClassCounts cs k = if cs.any (fun c => c.id = k) then some 0 else none :=
  foldl_initCounts_apply cs _ k

lemma tallyImages_apply (imgs : List ImageRec) (m : Nat → Option Nat) (k : Nat) :
    tallyImages m imgs k =
      (m k).map (· + (imgs.filter (fun img => img.classId = k)).length) := by
  induction imgs generalizing m with
  | nil => cases h : m k <;> simp [tallyImages, h]
  | cons img imgs ih =>
    rw [tallyImages, List.foldl_cons, ← tallyImages, ih]
    by_cases hik : img.classId = k
    · cases h : m k with
      | none =>
        rw [hik, h]
        simp [h, hik]
      | some v =>
        rw [hik, h]
        simp [setKey_same, hik, Nat.add_comm, Nat.add_assoc, Nat.add_left_comm]
    · have hk' : k ≠ img.classId := fun h => hik h.symm
      cases h : m img.classId <;> simp [h, setKey_other _ _ hk', hik]

/-- The `classCounts` object of `getDataSummary`: a key is present exactly
for the ids of stored classes, and its value counts exactly the stored
images carrying that `classId`. -/
lemma classCounts_apply (st : Store) (k : Nat) :
    (st.getDataSummary).classCounts k =
      if st.classes.any (fun c => c.id = k)
      then some ((st.images.filter (fun img => img.classId = k)).length)
      else none := by
  show tallyImages (initClassCounts st.classes) st.images k = _
  rw [tallyImages_apply, initClassCounts_apply]
  by_cases h : st.classes.any (fun c => c.id = k) <;> simp [h]

/-! ## Concrete fixtures used by the witnesses -/

/-- A fit oracle that always succeeds (payload `0`). -/
def fitOkNat : Nat → Except Nat Nat := fun _ => Except.ok 0

/-- A fit oracle that throws error `42` at epoch `1`. -/
def fitErrNat : Nat → Except Nat Nat := fun n =>
  if n = 1 then Except.error 42 else Except.ok 0

def demoStore : Store :=
  ⟨[⟨1, "cat"⟩, ⟨2, "dog"⟩], [⟨1, 1, "a"⟩, ⟨2, 1, "b"⟩, ⟨3, 2, "c"⟩, ⟨4, 2, "d"⟩]⟩

def busyApp : AppState := ⟨[⟨1, "cat"⟩, ⟨2, "dog"⟩], true, false⟩

def busyMgr : TrainState := ⟨true, false, false, 3⟩

def idleApp : AppState := ⟨[⟨1, "cat"⟩, ⟨2, "dog"⟩], false, false⟩

def idleMgr : TrainState := ⟨false, false, false, 0⟩

def smallStore : Store := ⟨[⟨1, "cat"⟩], [⟨1, 1, "a"⟩]⟩

/-- Two classes, four stored images, none of which belongs to either class. -/
def orphanStore : Store :=
  ⟨[⟨1, "cat"⟩, ⟨2, "dog"⟩], [⟨1, 99, "a"⟩, ⟨2, 99, "b"⟩, ⟨3, 99, "c"⟩, ⟨4, 99, "d"⟩]⟩

def cascadeStore : Store := ⟨[⟨1, "cat"⟩, ⟨2, "dog"⟩], [⟨1, 1, "a"⟩, ⟨2, 2, "b"⟩]⟩

/-! ## The claims -/

/-- C1: a training run that completes all requested epochs without stop or
error (the controller returns `completed = true`) emits exactly `epochCount`
ProgressEvents via `onEpochEnd`, with epoch indices `0, 1, …, epochCount-1`
in that order, all strictly before the terminal outcome, and then invokes
`onTrainingEnd` exactly once with `completed = true`. -/
theorem c1_completed_run_emits_all_progress_then_end {E L : Type}
    (fit : Nat → Except E L) (epochs : Nat) (sched : List (List Action))
    (h : (trainRun fit epochs sched).result = .finished true) :
    progressIndices (trainRun fit epochs sched).trace = List.range epochs ∧
    (trainRun fit epochs sched).trace.filter Event.isTerminal =
      [Event.trainingEnd true] ∧
    ∃ pre, (trainRun fit epochs sched).trace =
        pre ++ [Event.trainingEnd true, Event.released] ∧
      pre.filter Event.isTerminal = [] := by
  have hc : AllCtl (consume (E := E) (L := L) initialTrainState sched).1 :=
    consume_allCtl initialTrainState sched
  have hres :
      (trainLoop fit epochs epochs 0
        (consume (E := E) (L := L) initialTrainState sched).2.1
        (consume (E := E) (L := L) initialTrainState sched).2.2).result =
        .finished true := by
    simpa [trainRun] using h
  obtain ⟨hprog, pre', hpre', hterm', -⟩ :=
    trainLoop_completed fit epochs epochs 0 _ _ hres
  refine ⟨?_, ?_, ⟨(consume (E := E) (L := L) initialTrainState sched).1 ++ pre',
    ?_, ?_⟩⟩
  · rw [List.range_eq_range']
    simp [trainRun, hc.progressIndices_eq_nil, hprog]
  · simp [trainRun, List.filter_append, hc.filter_isTerminal, hpre', hterm']
  · simp [trainRun, hpre']
  · simp [List.filter_append, hc.filter_isTerminal, hterm']

theorem c1_witness :
    (trainRun fitOkNat 3 ([] : List (List Action))).result =
      RunResult.finished true ∧
    (progressIndices (trainRun fitOkNat 3 ([] : List (List Action))).trace =
      List.range 3 ∧
    (trainRun fitOkNat 3 ([] : List (List Action))).trace.filter Event.isTerminal =
      [Event.trainingEnd true] ∧
    ∃ pre, (trainRun fitOkNat 3 ([] : List (List Action))).trace =
        pre ++ [Event.trainingEnd true, Event.released] ∧
      pre.filter Event.isTerminal = []) :=
  ⟨by decide, c1_completed_run_emits_all_progress_then_end fitOkNat 3 [] (by decide)⟩

/-- C2: every session that reaches a terminal outcome — Completed, Stopped
or Failed, i.e. any run whose result is not the parked-forever `hung` state —
disposes the `xs`/`ys` tensor pair exactly once: the count of disposal
events in the trace is one on every such path. -/
theorem c2_tensors_released_exactly_once {E L : Type}
    (fit : Nat → Except E L) (epochs : Nat) (sched : List (List Action))
    (h : (trainRun fit epochs sched).result ≠ .hung) :
    releasedCount (trainRun fit epochs sched).trace = 1 := by
  have hc : AllCtl (consume (E := E) (L := L) initialTrainState sched).1 :=
    consume_allCtl initialTrainState sched
  have hres :
      (trainLoop fit epochs epochs 0
        (consume (E := E) (L := L) initialTrainState sched).2.1
        (consume (E := E) (L := L) initialTrainState sched).2.2).result ≠ .hung := by
    intro hcon
    exact h (by simpa [trainRun] using hcon)
  have h1 := trainLoop_releasedCount fit epochs epochs 0 _ _ hres
  simp [trainRun, hc.releasedCount_eq_zero, h1]

theorem c2_witness :
    (trainRun fitErrNat 3 ([] : List (List Action))).result ≠ RunResult.hung ∧
    releasedCount (trainRun fitErrNat 3 ([] : List (List Action))).trace = 1 :=
  ⟨by decide, c2_tensors_released_exactly_once fitErrNat 3 [] (by decide)⟩

/-- C4: the epoch loop never issues a fit while the pause flag is set and
the cancellation flag is unset — in fact every fit is issued with both
flags clear; moreover cancellation wins over pause: once the stop flag is
set the pause wait returns immediately and the loop terminates without
starting another epoch. -/
theorem c4_no_epoch_begins_while_paused {E L : Type}
    (fit : Nat → Except E L) (epochs : Nat) (sched : List (List Action)) :
    (∀ (N : Nat) (p q : Bool),
      Event.fitBegin N p q ∈ (trainRun fit epochs sched).trace →
      p = false ∧ q = false) ∧
    (∀ (s : TrainState) (w : List (List Action)), s.shouldStop = true →
      pauseWait (E := E) (L := L) s w = ([], s, some w)) ∧
    (∀ (rem epoch : Nat) (s : TrainState) (w : List (List Action)),
      s.shouldStop = true → trainLoop fit epochs rem epoch s w = finishRun s) := by
  refine ⟨?_, pauseWait_stopped, trainLoop_stopped fit epochs⟩
  intro N p q h
  have hc : AllCtl (consume (E := E) (L := L) initialTrainState sched).1 :=
    consume_allCtl initialTrainState sched
  simp only [trainRun, List.mem_append] at h
  rcases h with h | h
  · exact absurd h hc.not_fitBegin
  · exact trainLoop_fitBegin_flags fit epochs epochs 0 _ _ h

theorem c4_witness :
    Event.fitBegin 0 false false ∈
      (trainRun fitOkNat 1 ([] : List (List Action))).trace ∧
    (false = false ∧ false = false) :=
  ⟨by decide,
    (c4_no_epoch_begins_while_paused fitOkNat 1 []).1 0 false false (by decide)⟩

/-- C5: after a `stopTraining` call takes effect, the controller never
issues another fit (the cancellation flag, once set, is never cleared —
`applyAction` preserves it and the loop never resets it), at most one more
ProgressEvent is delivered (for the fit already in flight), and a terminal
callback is reached. -/
theorem c5_stop_latches_no_further_epochs {E L : Type}
    (fit : Nat → Except E L) (epochs : Nat) (sched : List (List Action))
    (pre post : List (Event E L))
    (h : (trainRun fit epochs sched).trace =
      pre ++ Event.ctl Action.stop :: post) :
    fitIndices post = [] ∧ (progressIndices post).length ≤ 1 ∧
    (∃ t ∈ post, t.isTerminal = true) ∧
    (∀ (s : TrainState) (a : Action), s.shouldStop = true →
      (applyAction s a).shouldStop = true) := by
  have hc : AllCtl (consume (E := E) (L := L) initialTrainState sched).1 :=
    consume_allCtl initialTrainState sched
  have h' : (consume (E := E) (L := L) initialTrainState sched).1 ++
      (trainLoop fit epochs epochs 0
        (consume (E := E) (L := L) initialTrainState sched).2.1
        (consume (E := E) (L := L) initialTrainState sched).2.2).trace =
      pre ++ Event.ctl Action.stop :: post := by
    rw [← h]; simp [trainRun]
  have hmono : ∀ (s : TrainState) (a : Action), s.shouldStop = true →
      (applyAction s a).shouldStop = true := fun _ _ hs =>
    applyAction_shouldStop_mono hs
  rcases split_middle h'.symm with ⟨A2, hA, hpost⟩ | ⟨pre2, -, hB⟩
  · -- stop consumed at the awaited model setup: the loop starts stopped
    have hstop : ((consume (E := E) (L := L) initialTrainState sched).2.1).shouldStop =
        true := consume_stop_of_mem (mem_of_split hA)
    have hloop := trainLoop_stopped fit epochs epochs 0
      (consume (E := E) (L := L) initialTrainState sched).2.1
      (consume (E := E) (L := L) initialTrainState sched).2.2 hstop
    have hA2 : AllCtl A2 := hc.of_suffix hA
    rw [hloop] at hpost
    refine ⟨?_, ?_, ⟨Event.trainingEnd
      (!((consume (E := E) (L := L) initialTrainState sched).2.1).shouldStop),
      ?_, rfl⟩, hmono⟩
    · simp [hpost, finishRun, hA2.fitIndices_eq_nil]
    · simp [hpost, finishRun, hA2.progressIndices_eq_nil]
    · rw [hpost]; simp [finishRun]
  · obtain ⟨h1, h2, h3⟩ := trainLoop_stop_split fit epochs epochs 0 _ _ pre2 post hB
    exact ⟨h1, h2, h3, hmono⟩

theorem c5_witness :
    (trainRun fitOkNat 3 [[], [Action.stop]]).trace =
      [Event.fitBegin 0 false false] ++ Event.ctl Action.stop ::
        [Event.epochEnd 0 3 0, Event.trainingEnd false, Event.released] ∧
    (fitIndices [Event.epochEnd 0 3 0, Event.trainingEnd false,
        (Event.released : Event Nat Nat)] = [] ∧
      (progressIndices [Event.epochEnd 0 3 0, Event.trainingEnd false,
        (Event.released : Event Nat Nat)]).length ≤ 1 ∧
      (∃ t ∈ [Event.epochEnd 0 3 0, Event.trainingEnd false,
        (Event.released : Event Nat Nat)], t.isTerminal = true) ∧
      (∀ (s : TrainState) (a : Action), s.shouldStop = true →
        (applyAction s a).shouldStop = true)) :=
  ⟨by decide, c5_stop_latches_no_further_epochs fitOkNat 3 [[], [Action.stop]]
    [Event.fitBegin 0 false false]
    [Event.epochEnd 0 3 0, Event.trainingEnd false, Event.released] (by decide)⟩

/-- C6: if the fit call throws at epoch `N` on a run that reaches it, the
session aborts at once: exactly the ProgressEvents for epochs `0…N-1`
precede the failure, each epoch up to `N` was attempted exactly once (no
retry, nothing after `N`), the tensors are disposed once, and the error is
reported exactly once via `onTrainingError`, carrying the thrown value
unmodified, after which `train` re-throws it. -/
theorem c6_fit_error_aborts_and_reports_once {E L : Type}
    (fit : Nat → Except E L) (epochs : Nat) (sched : List (List Action))
    (N : Nat) (p q : Bool) (e : E) (hN : fit N = .error e)
    (h : Event.fitBegin N p q ∈ (trainRun fit epochs sched).trace) :
    (trainRun fit epochs sched).result = .errored e ∧
    progressIndices (trainRun fit epochs sched).trace = List.range N ∧
    fitIndices (trainRun fit epochs sched).trace = List.range (N + 1) ∧
    (trainRun fit epochs sched).trace.filter Event.isTerminal =
      [Event.trainingError e] ∧
    releasedCount (trainRun fit epochs sched).trace = 1 ∧
    ∃ pre, (trainRun fit epochs sched).trace =
      pre ++ [Event.trainingError e, Event.released] := by
  have hc : AllCtl (consume (E := E) (L := L) initialTrainState sched).1 :=
    consume_allCtl initialTrainState sched
  have hmem : Event.fitBegin N p q ∈
      (trainLoop fit epochs epochs 0
        (consume (E := E) (L := L) initialTrainState sched).2.1
        (consume (E := E) (L := L) initialTrainState sched).2.2).trace := by
    simp only [trainRun, List.mem_append] at h
    rcases h with h | h
    · exact absurd h hc.not_fitBegin
    · exact h
  obtain ⟨-, hres, hprog, hfits, hterm, pre', hpre'⟩ :=
    trainLoop_error fit epochs epochs 0 _ _ hN hmem
  have hrel := trainLoop_releasedCount fit epochs epochs 0 _ _
    (by rw [hres]; simp)
  refine ⟨by simpa [trainRun] using hres, ?_, ?_, ?_, ?_,
    ⟨(consume (E := E) (L := L) initialTrainState sched).1 ++ pre', ?_⟩⟩
  · rw [List.range_eq_range']
    have hN0 : N - 0 = N := by omega
    rw [← hN0]
    simp [trainRun, hc.progressIndices_eq_nil, hprog]
  · rw [List.range_eq_range']
    have hN0 : N + 1 - 0 = N + 1 := by omega
    rw [← hN0]
    simp [trainRun, hc.fitIndices_eq_nil, hfits]
  · simp [trainRun, List.filter_append, hc.filter_isTerminal, hterm]
  · simp [trainRun, hc.releasedCount_eq_zero, hrel]
  · simp [trainRun, hpre']

theorem c6_witness :
    (fitErrNat 1 = Except.error 42 ∧
      Event.fitBegin 1 false false ∈
        (trainRun fitErrNat 3 ([] : List (List Action))).trace) ∧
    ((trainRun fitErrNat 3 ([] : List (List Action))).result =
        RunResult.errored 42 ∧
      progressIndices (trainRun fitErrNat 3 ([] : List (List Action))).trace =
        List.range 1 ∧
      fitIndices (trainRun fitErrNat 3 ([] : List (List Action))).trace =
        List.range 2 ∧
      (trainRun fitErrNat 3 ([] : List (List Action))).trace.filter
        Event.isTerminal = [Event.trainingError 42] ∧
      releasedCount (trainRun fitErrNat 3 ([] : List (List Action))).trace = 1 ∧
      ∃ pre, (trainRun fitErrNat 3 ([] : List (List Action))).trace =
        pre ++ [Event.trainingError 42, Event.released]) :=
  ⟨⟨rfl, by decide⟩,
    c6_fit_error_aborts_and_reports_once fitErrNat 3 [] 1 false false 42
      rfl (by decide)⟩

/-- C3 (counterexample): the claim says a `start()` issued while a session
is Running or Paused "always fails with SessionAlreadyActiveError".  No
such error exists anywhere in the code: `handleStartTraining` begins with
`if (state.isTraining) return;`, a bare early return.  At a concrete busy
state the call produces the `busyNoop` branch — it throws nothing and shows
no toast (unlike the validation failures, which do surface a warning), so
no error of any kind is reported to the caller or the user. -/
theorem c3_counterexample_busy_start_is_silent :
    (handleStartTraining busyApp busyMgr demoStore).outcome =
      StartOutcome.busyNoop ∧
    StartOutcome.emitsWarningToast
      (handleStartTraining busyApp busyMgr demoStore).outcome = false ∧
    (handleStartTraining busyApp busyMgr demoStore).app = busyApp ∧
    (handleStartTraining busyApp busyMgr demoStore).mgr = busyMgr ∧
    (handleStartTraining busyApp busyMgr demoStore).tensorsAllocated = false := by
  decide

/-- C3 (amended): calling `start()` while a session is active
(`state.isTraining` true, which covers both the Running and the Paused
state) is rejected, but silently: the call returns immediately with no
error surfaced (no exception, no toast), performs no training callbacks,
allocates no tensors, and leaves both the app state and the session's
manager state (lifecycle flags, epoch index, pause flag, cancellation
flag) unchanged. -/
theorem c3_busy_start_silent_noop (app : AppState) (mgr : TrainState)
    (st : Store) (h : app.isTraining = true) :
    handleStartTraining app mgr st = ⟨.busyNoop, app, mgr, false⟩ ∧
    StartOutcome.emitsWarningToast .busyNoop = false := by
  simp [handleStartTraining, h, StartOutcome.emitsWarningToast]

theorem c3_witness :
    busyApp.isTraining = true ∧
    (handleStartTraining busyApp busyMgr demoStore =
        ⟨.busyNoop, busyApp, busyMgr, false⟩ ∧
      StartOutcome.emitsWarningToast .busyNoop = false) :=
  ⟨rfl, c3_busy_start_silent_noop busyApp busyMgr demoStore rfl⟩

/-- C7: when the stored data has fewer than 2 classes or fewer than 4 total
images, `handleStartTraining` (called with no session active) rejects on a
validation branch — surfacing a warning toast, the code's rendering of
`ValidationError` — before any tensor is allocated and before a session is
created: the training flag stays false, the app state and the manager state
are unchanged, and no training callbacks run. -/
theorem c7_validation_rejects_without_state_change (app : AppState)
    (mgr : TrainState) (st : Store) (h0 : app.isTraining = false)
    (h : st.classes.length < 2 ∨ st.images.length < 4) :
    ((handleStartTraining app mgr st).outcome = .rejectedClasses ∨
      (handleStartTraining app mgr st).outcome = .rejectedImages) ∧
    ((handleStartTraining app mgr st).outcome).emitsWarningToast = true ∧
    (handleStartTraining app mgr st).app = app ∧
    (handleStartTraining app mgr st).mgr = mgr ∧
    (handleStartTraining app mgr st).tensorsAllocated = false ∧
    ((handleStartTraining app mgr st).app).isTraining = false := by
  by_cases hc : st.classes.length < 2
  · simp [handleStartTraining, h0, Store.getDataSummary, hc,
      StartOutcome.emitsWarningToast]
  · have hi : st.images.length < 4 := by tauto
    simp [handleStartTraining, h0, Store.getDataSummary, hc, hi,
      StartOutcome.emitsWarningToast]

theorem c7_witness :
    (idleApp.isTraining = false ∧
      (smallStore.classes.length < 2 ∨ smallStore.images.length < 4)) ∧
    (((handleStartTraining idleApp idleMgr smallStore).outcome =
        .rejectedClasses ∨
      (handleStartTraining idleApp idleMgr smallStore).outcome =
        .rejectedImages) ∧
    ((handleStartTraining idleApp idleMgr smallStore).outcome).emitsWarningToast =
      true ∧
    (handleStartTraining idleApp idleMgr smallStore).app = idleApp ∧
    (handleStartTraining idleApp idleMgr smallStore).mgr = idleMgr ∧
    (handleStartTraining idleApp idleMgr smallStore).tensorsAllocated = false ∧
    ((handleStartTraining idleApp idleMgr smallStore).app).isTraining = false) :=
  ⟨⟨rfl, by decide⟩,
    c7_validation_rejects_without_state_change idleApp idleMgr smallStore rfl
      (by decide)⟩

/-- C8: `deleteClass(id)` cascades: it is, definitionally, the deletion of
every image of the class followed by the deletion of the class record, in
that order as two non-atomic store operations.  A completed call leaves
neither the class record nor any image with that `classId`; the
intermediate state after the first step alone has the class's images gone
while the classes store is untouched — an interruption there leaves a class
with no images (never an orphaned image of a deleted class). -/
theorem c8_deleteClass_cascades_images_first (st : Store) (id : Nat) :
    st.deleteClass id = (st.deleteImagesByClass id).deleteClassRecord id ∧
    (∀ c ∈ (st.deleteClass id).classes, c.id ≠ id) ∧
    (∀ img ∈ (st.deleteClass id).images, img.classId ≠ id) ∧
    (st.deleteImagesByClass id).getImagesByClass id = [] ∧
    (st.deleteImagesByClass id).classes = st.classes := by
  refine ⟨rfl, ?_, ?_, ?_, deleteImagesByClass_classes st id⟩
  · intro c hc
    have h' : c ∈ (st.deleteImagesByClass id).classes ∧ ¬ c.id = id := by
      simpa [Store.deleteClass, Store.deleteClassRecord] using hc
    exact h'.2
  · intro img himg
    have h' : img ∈ (st.deleteImagesByClass id).images := by
      simpa [Store.deleteClass, Store.deleteClassRecord] using himg
    exact deleteImagesByClass_no_images st id img h'
  · rw [Store.getImagesByClass, List.filter_eq_nil_iff]
    intro img himg
    simpa using deleteImagesByClass_no_images st id img himg

theorem c8_witness :
    (⟨2, 2, "b"⟩ : ImageRec) ∈ (cascadeStore.deleteClass 1).images ∧
    (⟨2, 2, "b"⟩ : ImageRec).classId ≠ 1 :=
  ⟨by decide,
    (c8_deleteClass_cascades_images_first cascadeStore 1).2.2.1 ⟨2, 2, "b"⟩
      (by decide)⟩

/-- C9: `handleAddClass` rejects duplicates case-insensitively: if the
trimmed name is empty, or matches an existing class name ignoring letter
case, nothing is written to the store and the class list is unchanged;
otherwise exactly one class carrying the trimmed name is appended (one
store write, one list push). -/
theorem c9_add_class_rejects_duplicates (classes : List ClassRec) (st : Store)
    (input : String) (freshId : Nat) :
    ((jsTrim input = "" ∨
        ∃ c ∈ classes, jsToLower c.name = jsToLower (jsTrim input)) →
      handleAddClass classes st input freshId = ⟨classes, st, 0⟩) ∧
    (jsTrim input ≠ "" →
      (∀ c ∈ classes, jsToLower c.name ≠ jsToLower (jsTrim input)) →
      handleAddClass classes st input freshId =
        ⟨classes ++ [⟨freshId, jsTrim input⟩],
          st.addClass freshId (jsTrim input), 1⟩) := by
  constructor
  · rintro (h | ⟨c, hc, hcl⟩)
    · simp [handleAddClass, h]
    · have hany : (classes.any fun c =>
          jsToLower c.name = jsToLower (jsTrim input)) = true :=
        List.any_eq_true.mpr ⟨c, hc, by simp [hcl]⟩
      by_cases he : jsTrim input = ""
      · simp [handleAddClass, he]
      · simp [handleAddClass, he, hany]
  · intro h1 h2
    have hany : ¬ (classes.any fun c =>
        jsToLower c.name = jsToLower (jsTrim input)) = true := by
      rw [List.any_eq_true]
      rintro ⟨c, hc, hcl⟩
      exact h2 c hc (by simpa using hcl)
    simp [handleAddClass, h1, hany]

theorem c9_witness :
    (jsTrim " Dog " ≠ "" ∧
      (∀ c ∈ [(⟨1, "cat"⟩ : ClassRec)],
        jsToLower c.name ≠ jsToLower (jsTrim " Dog "))) ∧
    handleAddClass [⟨1, "cat"⟩] cascadeStore " Dog " 5 =
      ⟨[⟨1, "cat"⟩, ⟨5, jsTrim " Dog "⟩],
        cascadeStore.addClass 5 (jsTrim " Dog "), 1⟩ :=
  ⟨⟨by decide, by decide⟩,
    (c9_add_class_rejects_duplicates [⟨1, "cat"⟩] cascadeStore " Dog " 5).2
      (by decide) (by decide)⟩

/-- C10: `getDataSummary().totalImages` counts every stored image record —
orphaned images whose `classId` matches no existing class included — while
`classCounts` has a key only for ids of existing classes and each key's
value counts only the images carrying that key (so orphaned images
increment nothing).  Consequently the four-image minimum checked before
training can be met entirely by orphaned images: in `orphanStore` all four
images belong to class id 99, which is not a class, yet `start()` proceeds. -/
theorem c10_summary_counts_orphans_in_total_only (st : Store) (k n : Nat) :
    (st.getDataSummary).totalImages = st.images.length ∧
    ((st.getDataSummary).classCounts k = some n →
      (∃ c ∈ st.classes, c.id = k) ∧
      n = (st.images.filter (fun img => img.classId = k)).length) ∧
    ((orphanStore.getDataSummary).numClasses = 2 ∧
      (orphanStore.getDataSummary).totalImages = 4 ∧
      (∀ img ∈ orphanStore.images, ∀ c ∈ orphanStore.classes,
        img.classId ≠ c.id) ∧
      (handleStartTraining idleApp idleMgr orphanStore).outcome = .started) := by
  refine ⟨rfl, ?_, by decide⟩
  intro h
  rw [classCounts_apply] at h
  by_cases ha : st.classes.any (fun c => c.id = k) = true
  · rw [if_pos ha] at h
    refine ⟨?_, (Option.some.inj h).symm⟩
    obtain ⟨c, hc, hck⟩ := List.any_eq_true.mp ha
    exact ⟨c, hc, by simpa using hck⟩
  · rw [if_neg ha] at h
    exact absurd h (by simp)

theorem c10_witness :
    ((demoStore.getDataSummary).classCounts 1 = some 2) ∧
    ((∃ c ∈ demoStore.classes, c.id = 1) ∧
      2 = (demoStore.images.filter (fun img => img.classId = 1)).length) :=
  ⟨by simp [classCounts_apply, demoStore],
    (c10_summary_counts_orphans_in_total_only demoStore 1 2).2.1
      (by simp [classCounts_apply, demoStore])⟩

end ImageClassifier
